import Mathlib

/-!
Verification of the icon/animation asset compiler in `scripts/assets.py`.

The Python code is shallowly embedded: Python strings become `List Char`,
bytes become `List Nat` (each element a value below 256 in well-formed
data), fallible operations (exceptions, failed `assert`s, aborted runs)
become `Option`, and the two external collaborators (the image converter
and the compressor) are parameters of the model.
-/

/-- Python strings are modelled as lists of characters. -/
abbrev Str := List Char

/-- Literal helper: the characters of a Lean string literal. -/
def str (s : String) : Str := s.data

/-- Characters stripped by Python `str.strip()` (ASCII whitespace). -/
def isPySpace (c : Char) : Bool :=
  [' ', '\t', '\n', '\r', '\x0b', '\x0c'].contains c

/-- Python `s.strip()`. -/
def pyStrip (s : Str) : Str :=
  ((s.dropWhile isPySpace).reverse.dropWhile isPySpace).reverse

/-- Python `s.lower()` (ASCII range; the filenames involved are ASCII). -/
def pyLower (s : Str) : Str := s.map Char.toLower

/-- Python `s.split(sep)` for a one-character separator: split at every
occurrence, keeping empty pieces; the result is never empty. -/
def splitCh (c : Char) : Str → List Str
  | [] => [[]]
  | x :: xs =>
    if x = c then [] :: splitCh c xs
    else
      match splitCh c xs with
      | [] => [[x]]
      | y :: ys => (x :: y) :: ys

/-- Python `s.replace(old, new)` for a one-character `old`. -/
def replaceCh (c : Char) (rep : Str) (s : Str) : Str :=
  (s.map fun x => if x = c then rep else [x]).flatten

/-- Python `s.replace(old, new)` for a two-character `old` (left-to-right,
non-overlapping), as used for stripping the `0x` prefixes. -/
def replace2 (p1 p2 : Char) (rep : Str) : Str → Str
  | [] => []
  | [x] => [x]
  | x :: y :: xs =>
    if x = p1 ∧ y = p2 then rep ++ replace2 p1 p2 rep xs
    else x :: replace2 p1 p2 rep (y :: xs)

/-- Python `f.readline()` on a `StringIO`: the first line (newline removed)
and the remaining text after that newline. -/
def takeLine (s : Str) : Str × Str :=
  (s.takeWhile (· != '\n'), (s.dropWhile (· != '\n')).drop 1)

/-- Value of a nonempty all-decimal-digit string. -/
def digitsVal : Str → Option Nat
  | [] => none
  | ds =>
    if ds.all Char.isDigit then
      some (ds.foldl (fun a c => 10 * a + (c.toNat - 48)) 0)
    else none

/-- Python `int(s)`: optional surrounding whitespace, optional sign, then
decimal digits (digit-group underscores are never produced here). -/
def pyInt (s : Str) : Option Int :=
  match pyStrip s with
  | '+' :: ds => (digitsVal ds).map fun n => (n : Int)
  | '-' :: ds => (digitsVal ds).map fun n => -(n : Int)
  | ds => (digitsVal ds).map fun n => (n : Int)

/-- Value of one hexadecimal digit. -/
def hexVal (c : Char) : Option Nat :=
  if c.isDigit then some (c.toNat - 48)
  else if 'a' ≤ c ∧ c ≤ 'f' then some (c.toNat - 87)
  else if 'A' ≤ c ∧ c ≤ 'F' then some (c.toNat - 55)
  else none

/-- Python `bytearray.fromhex(s)`: pairs of hex digits, with ASCII spaces
allowed around the two-digit groups. -/
def fromhex : Str → Option (List Nat)
  | [] => some []
  | ' ' :: rest => fromhex rest
  | c1 :: c2 :: rest =>
    match hexVal c1, hexVal c2 with
    | some a, some b => (fromhex rest).map fun l => (16 * a + b) :: l
    | _, _ => none
  | [_] => none

/-- Python `"{:02x}".format(n)`: lowercase hex, zero-padded to width 2. -/
def hex2 (n : Nat) : Str :=
  let ds := Nat.toDigits 16 n
  if ds.length < 2 then '0' :: ds else ds

/-- Python `str(n)` for a nonnegative integer. -/
def renderNat (n : Nat) : Str := Nat.toDigits 10 n

/-- Python `str(i)` for an integer. -/
def renderInt (i : Int) : Str :=
  if i < 0 then '-' :: renderNat i.natAbs else renderNat i.natAbs

/-- Python `str(v)` where `v` is an integer or `None`. -/
def renderOptInt : Option Int → Str
  | none => str "None"
  | some i => renderInt i

/-- Lexicographic order on code points, as Python compares strings. -/
def lexLe : Str → Str → Bool
  | [], _ => true
  | _ :: _, [] => false
  | a :: as, b :: bs => if a = b then lexLe as bs else decide (a < b)

/-- Insert one (name, payload) pair into a name-sorted list. -/
def insPair {β : Type} (x : Str × β) : List (Str × β) → List (Str × β)
  | [] => [x]
  | y :: ys => if lexLe x.1 y.1 then x :: y :: ys else y :: insPair x ys

/-- Python `list.sort()` over sibling names, modelled as insertion sort on
(name, payload) pairs keyed by name; for distinct sibling names — always
true on a filesystem — this agrees with any correct sort of the names
followed by per-name lookup. -/
def sortPairs {β : Type} : List (Str × β) → List (Str × β)
  | [] => []
  | x :: xs => insPair x (sortPairs xs)

/-- Spec reading of "basename of the containing directory": scan the path
keeping the segment after the most recent slash. -/
def specBasename (s : Str) : Str :=
  s.foldl (fun acc ch => if ch = '/' then [] else acc ++ [ch]) []

/-- Spec reading of "filename without its extension". -/
def specStripExt (s : Str) : Str :=
  if '.' ∈ s then ((s.reverse.dropWhile (· != '.')).drop 1).reverse else s

/-- Accumulator pass for `splitWs`, carrying the current (reversed)
token. -/
def splitWsAux (cur : Str) : Str → List Str
  | [] => if cur = [] then [] else [cur.reverse]
  | c :: cs =>
    if isPySpace c then
      if cur = [] then splitWsAux [] cs else cur.reverse :: splitWsAux [] cs
    else splitWsAux (c :: cur) cs

/-- Python `s.split()` with no argument: runs of whitespace, empty pieces
dropped (the spec's "whitespace-separated tokens"). -/
def splitWs (s : Str) : List Str := splitWsAux [] s

/-- `ICONS_SUPPORTED_FORMATS` (line 12). -/
def ICONS_SUPPORTED_FORMATS : List Str := [str "png"]

/-- `_iconIsSupported` (lines 99-101): the extension is the last
dot-separated piece of the lowercased filename. -/
def iconIsSupported (filename : Str) : Bool :=
  let ext := (splitCh '.' (pyLower filename)).getLastD []
  ICONS_SUPPORTED_FORMATS.any fun s => decide (ext = s)

/-- `bytearray([a, b])` (line 87): building a bytearray from ints raises
unless every element is an in-range byte. -/
def byteArray2 (a b : Nat) : Option (List Nat) :=
  if a < 256 ∧ b < 256 then some [a, b] else none

/-- Byte content of the C array literal emitted for one frame
(lines 85-96): `data_enc` is the compressed stream prefixed with the two
length bytes; the compressed form is used only when strictly smaller than
the raw form, flag byte included.  The Bool records which branch of the
size test at line 89 was taken.  In the raw branch the source re-emits the
parsed hex tokens textually; their byte values are exactly `dataBin`. -/
def frameRepr (dataBin enc : List Nat) : Option (Bool × List Nat) :=
  if enc = [] then none
  else
    match byteArray2 (enc.length &&& 0xFF) (enc.length >>> 8) with
    | none => none
    | some hdr =>
      let dataEnc := hdr ++ enc
      if dataEnc.length < dataBin.length + 1 then some (true, 0x01 :: 0x00 :: dataEnc)
      else some (false, 0x00 :: dataBin)

/-- Width/height extraction from one header line (lines 76-77):
`int(line.strip().split(" ")[2])`. -/
def parseDimLine (line : Str) : Option Int :=
  match (splitCh ' ' (pyStrip line)).get? 2 with
  | none => none
  | some tok => pyInt tok

/-- `_icon2header` (lines 72-97).  `conv` models `convert file xbm:-`
applied to the file's content (decoded to text); `hs` models
`heatshrink -e -w8 -l4` on the raw bitmap bytes.  Result: (width, height,
C initialiser text for the frame's byte array); `none` is any abort
(failed `assert`, parse exception, out-of-range byte). -/
def icon2header (conv : Str → Str) (hs : List Nat → List Nat) (content : Str) :
    Option (Int × Int × Str) :=
  if conv content = [] then none
  else
    (parseDimLine (takeLine (pyStrip (conv content))).1).bind fun width =>
      (parseDimLine (takeLine (takeLine (pyStrip (conv content))).2).1).bind fun height =>
        ((splitCh '=' (replaceCh ' ' [] (replaceCh '\n' []
            (pyStrip (takeLine (takeLine (pyStrip (conv content))).2).2)))).get? 1).bind
          fun seg =>
            (fromhex (replace2 '0' 'x' []
                (replaceCh ',' [' '] ((seg.dropLast.drop 1).dropLast)))).bind fun dataBin =>
              if hs dataBin = [] then none
              else
                (byteArray2 ((hs dataBin).length &&& 0xFF)
                    ((hs dataBin).length >>> 8)).bind fun hdr =>
                  some (width, height,
                    if (hdr ++ hs dataBin).length < dataBin.length + 1 then
                      str "\x7b0x01,0x00," ++
                        ((hdr ++ hs dataBin).map fun b =>
                          str "0x" ++ hex2 b ++ [',']).flatten ++ ['\x7d']
                    else str "\x7b0x00," ++ seg.dropLast.drop 1)

/-- Static icon naming (lines 158-160):
`"I_" + "_".join(filename.split(".")[:-1]).replace("-", "_")`. -/
def staticIconName (filename : Str) : Str :=
  str "I_" ++ replaceCh '-' ['_'] (List.intercalate ['_'] ((splitCh '.' filename).dropLast))

/-- Animation icon naming (line 117):
`"A_" + os.path.split(dirpath)[1].replace("-", "_")`; `os.path.split`
keeps the part after the last slash. -/
def animIconName (dirpath : Str) : Str :=
  str "A_" ++ replaceCh '-' ['_'] ((splitCh '/' dirpath).getLastD [])

/-- `ICONS_TEMPLATE_C_HEADER` (lines 20-24). -/
def strCHeader : Str := str "#include \"assets_icons.h\"\n\n#include <gui/icon_i.h>\n\n"

/-- `ICONS_TEMPLATE_H_HEADER` (lines 14-17). -/
def strHHeader : Str := str "#pragma once\n#include <gui/icon.h>\n\n"

/-- `ICONS_TEMPLATE_C_FRAME` (line 25) applied to one frame symbol. -/
def frameChunk (name data : Str) : Str :=
  str "const uint8_t " ++ name ++ str "[] = " ++ data ++ str ";\n"

/-- `ICONS_TEMPLATE_C_DATA` (line 26) applied to one icon's data symbol. -/
def dataChunk (name data : Str) : Str :=
  str "const uint8_t* const " ++ name ++ str "[] = " ++ data ++ str ";\n"

/-- One icon registry record `(icon_name, width, height, frame_rate,
frame_count)` as appended at lines 151 and 173.  Width and height keep the
`Option` the Python variables have in the animation branch; the paths that
append a record always have them set. -/
structure IconRec where
  name : Str
  width : Option Int
  height : Option Int
  rate : Int
  count : Nat
deriving DecidableEq

/-- `ICONS_TEMPLATE_C_ICONS` (line 27) applied to one registry record by
the descriptor loop (lines 176-185). -/
def descChunk (i : IconRec) : Str :=
  str "const Icon " ++ i.name ++ str " = \x7b.width=" ++ renderOptInt i.width ++
  str ",.height=" ++ renderOptInt i.height ++ str ",.frame_count=" ++ renderNat i.count ++
  str ",.frame_rate=" ++ renderInt i.rate ++ str ",.frames=_" ++ i.name ++ str "\x7d;\n"

/-- `ICONS_TEMPLATE_H_ICON_NAME` (line 18) applied to one icon by the
header loop (lines 191-192). -/
def declChunk (name : Str) : Str := str "extern const Icon " ++ name ++ str ";\n"

/-- Loop state of the animation branch (lines 118-121). -/
structure AnimSt where
  width : Option Int
  height : Option Int
  count : Nat
  rate : Int
  fnames : List Str
  writes : List Str
deriving DecidableEq

/-- Initial animation state: `width = height = None`, counters zero. -/
def animSt0 : AnimSt := ⟨none, none, 0, 0, [], []⟩

/-- Body of the animation branch's per-file loop (lines 122-142), one step
per (sorted) directory entry; `none` is any aborted run. -/
def animLoop (i2h : Str → Option (Int × Int × Str)) (iconName : Str) :
    List (Str × Str) → AnimSt → Option AnimSt
  | [], st => some st
  | (fname, content) :: rest, st =>
    if fname = str "frame_rate" then
      match pyInt (pyStrip content) with
      | none => none
      | some r => animLoop i2h iconName rest { st with rate := r }
    else if iconIsSupported fname then
      match i2h content with
      | none => none
      | some (tw, th, data) =>
        if st.width.getD tw = tw ∧ st.height.getD th = th then
          animLoop i2h iconName rest
            { width := some (st.width.getD tw), height := some (st.height.getD th),
              count := st.count + 1, rate := st.rate,
              fnames := st.fnames ++ ['_' :: iconName ++ '_' :: renderNat st.count],
              writes := st.writes ++
                [frameChunk ('_' :: iconName ++ '_' :: renderNat st.count) data] }
        else none
    else animLoop i2h iconName rest st

/-- `f'{{{",".join(frame_names)}}}'` (lines 147 and 169). -/
def bracePack (names : List Str) : Str :=
  '\x7b' :: List.intercalate [','] names ++ ['\x7d']

/-- Animation branch of one directory (lines 115-151): run the frame loop,
then `assert frame_rate > 0` and `assert frame_count > 0`, write the
frame-pointer array plus a blank line, and append the registry record. -/
def processAnim (i2h : Str → Option (Int × Int × Str)) (dirpath : Str)
    (files : List (Str × Str)) : Option (List Str × List IconRec) :=
  match animLoop i2h (animIconName dirpath) files animSt0 with
  | none => none
  | some st =>
    if st.rate > 0 ∧ st.count > 0 then
      some (st.writes ++
          [dataChunk ('_' :: animIconName dirpath) (bracePack st.fnames), str "\n"],
        [⟨animIconName dirpath, st.width, st.height, st.rate, st.count⟩])
    else none

/-- Static branch of one directory (lines 152-173): each supported file
becomes a single-frame icon; its frame block, pointer array and a blank
line are written immediately. -/
def processStatic (i2h : Str → Option (Int × Int × Str)) :
    List (Str × Str) → Option (List Str × List IconRec)
  | [] => some ([], [])
  | (fname, content) :: rest =>
    if iconIsSupported fname then
      match i2h content with
      | none => none
      | some (w, h, data) =>
        match processStatic i2h rest with
        | none => none
        | some (ws, ics) =>
          let iconName := staticIconName fname
          let frameName := '_' :: iconName ++ str "_0"
          some (frameChunk frameName data ::
            dataChunk ('_' :: iconName) (bracePack [frameName]) :: str "\n" :: ws,
            ⟨iconName, some w, some h, 0, 1⟩ :: ics)
    else processStatic i2h rest

/-- One directory of the walk (lines 109-173): directories with no files
are skipped; a directory listing `frame_rate` is an animation group; any
other directory is processed file-by-file as static icons. -/
def processDir (i2h : Str → Option (Int × Int × Str)) :
    Str × List (Str × Str) → Option (List Str × List IconRec)
  | (dirpath, files) =>
    if files = [] then some ([], [])
    else if files.any (fun f => decide (f.1 = str "frame_rate")) then
      processAnim i2h dirpath files
    else processStatic i2h files

/-- A directory tree: files (name, content) and named subdirectories, each
list in arbitrary filesystem enumeration order. -/
inductive FsTree where
  | node (files : List (Str × Str)) (dirs : List (Str × FsTree))

mutual
/-- Recursively sort sibling files and subdirectories by name: the effect
of `dirnames.sort()` and `filenames.sort()` (lines 111-112, 122) on what
`os.walk` visits and reports. -/
def canonTree : FsTree → FsTree
  | .node files dirs => .node (sortPairs files) (sortPairs (canonDirs dirs))
/-- Pointwise `canonTree` over a sibling list. -/
def canonDirs : List (Str × FsTree) → List (Str × FsTree)
  | [] => []
  | (n, t) :: rest => (n, canonTree t) :: canonDirs rest
end

mutual
/-- Top-down `os.walk` over an already-canonicalised tree: the root entry
first, then each subdirectory depth-first, paths joined with `/`. -/
def walkTree (p : Str) : FsTree → List (Str × List (Str × Str))
  | .node files dirs => (p, files) :: walkDirs p dirs
/-- Depth-first walk of a sibling list. -/
def walkDirs (p : Str) : List (Str × FsTree) → List (Str × List (Str × Str))
  | [] => []
  | (n, t) :: rest => walkTree (p ++ '/' :: n) t ++ walkDirs p rest
end

/-- Sequential processing of the walked directories, concatenating writes
and registry records in visit order (the loop at lines 109-173). -/
def processEntries (i2h : Str → Option (Int × Int × Str)) :
    List (Str × List (Str × Str)) → Option (List Str × List IconRec)
  | [] => some ([], [])
  | e :: rest =>
    match processDir i2h e with
    | none => none
    | some (ws, ics) =>
      match processEntries i2h rest with
      | none => none
      | some (ws', ics') => some (ws ++ ws', ics ++ ics')

/-- Per-directory results kept separate (used to state layout facts). -/
def dirResults (i2h : Str → Option (Int × Int × Str)) :
    List (Str × List (Str × Str)) → Option (List (List Str × List IconRec))
  | [] => some []
  | e :: rest =>
    match processDir i2h e with
    | none => none
    | some r =>
      match dirResults i2h rest with
      | none => none
      | some rs => some (r :: rs)

/-- The whole `icons` command (lines 103-194) on one input tree: the write
sequences of `assets_icons.c` and `assets_icons.h`, or `none` for an
aborted run.  The descriptor table and the header declarations are written
by the trailing loops (lines 176-186 and 189-192). -/
def iconsRun (conv : Str → Str) (hs : List Nat → List Nat) (root : Str) (t : FsTree) :
    Option (List Str × List Str) :=
  match processEntries (icon2header conv hs) (walkTree root (canonTree t)) with
  | none => none
  | some (body, icons) =>
    let wc := (icons.foldl (fun acc i => acc ++ [descChunk i]) (strCHeader :: body)) ++ [str "\n"]
    let wh := icons.foldl (fun acc i => acc ++ [declChunk i.name]) [strHHeader]
    some (wc, wh)

/-- The (width, height) the extractor reports for each qualifying frame
file of an animation directory, in order — the same qualification test as
the loop (not the `frame_rate` marker, supported extension). -/
def frameMetas (i2h : Str → Option (Int × Int × Str)) :
    List (Str × Str) → List (Option (Int × Int))
  | [] => []
  | (fname, cnt) :: rest =>
    if fname = str "frame_rate" then frameMetas i2h rest
    else if iconIsSupported fname then
      ((i2h cnt).map fun r => (r.1, r.2.1)) :: frameMetas i2h rest
    else frameMetas i2h rest

/-- Frame layout the claim states for compressed frames: flag byte, then
the two little-endian length bytes, then the compressed bytes. -/
def specCompressedFrame (enc : List Nat) : List Nat :=
  0x01 :: (enc.length % 256) :: (enc.length / 256) :: enc

/-- Spec reading of the header-line rule: the integer value of the last
whitespace-separated token. -/
def specParseDim (line : Str) : Option Int :=
  match (splitWs line).getLast? with
  | none => none
  | some tok => pyInt tok

/-- Spec reading of static naming: `I_` plus the filename without its
extension, hyphens replaced by underscores. -/
def specStaticIconName (filename : Str) : Str :=
  str "I_" ++ replaceCh '-' ['_'] (specStripExt filename)

/-- Spec reading of animation naming (computed differently from the
source's form): `A_` plus the directory basename, hyphens replaced by
underscores. -/
def specAnimIconName (dirpath : Str) : Str :=
  str "A_" ++ replaceCh '-' ['_'] (specBasename dirpath)

/-! Helper lemmas. -/

/-- `n & 0xFF` is `n mod 256`. -/
lemma land_255_eq_mod (n : Nat) : n &&& 255 = n % 256 := by
  apply Nat.eq_of_testBit_eq
  intro i
  have h255 : (255 : Nat) = 2 ^ 8 - 1 := by norm_num
  have h256 : (256 : Nat) = 2 ^ 8 := by norm_num
  rw [Nat.testBit_and, h255, Nat.testBit_two_pow_sub_one, h256, Nat.testBit_mod_two_pow,
    Bool.and_comm]

/-- `n >> 8` is `n div 256`. -/
lemma shiftRight_8_eq_div (n : Nat) : n >>> 8 = n / 256 := by
  rw [Nat.shiftRight_eq_div_pow]

/-- Executable characterisation of `frameRepr` in arithmetic terms. -/
lemma frameRepr_char (dataBin enc : List Nat) :
    frameRepr dataBin enc =
      if enc = [] then none
      else if enc.length < 65536 then
        if 2 + enc.length < dataBin.length + 1 then
          some (true, 0x01 :: 0x00 :: (enc.length % 256) :: (enc.length / 256) :: enc)
        else some (false, 0x00 :: dataBin)
      else none := by
  unfold frameRepr byteArray2
  rw [land_255_eq_mod, shiftRight_8_eq_div]
  by_cases he : enc = []
  · simp [he]
  · rw [if_neg he, if_neg he]
    have hm : enc.length % 256 < 256 := Nat.mod_lt _ (by norm_num)
    by_cases hl : enc.length < 65536
    · have hd : enc.length / 256 < 256 := by omega
      rw [if_pos ⟨hm, hd⟩, if_pos hl]
      have hlen : ((enc.length % 256 :: enc.length / 256 :: []) ++ enc).length
          = 2 + enc.length := by
        simp [List.length_append]
        omega
      by_cases hc : 2 + enc.length < dataBin.length + 1
      · rw [if_pos hc]
        simp only []
        rw [if_pos (by rw [hlen]; exact hc)]
        simp
      · rw [if_neg hc]
        simp only []
        rw [if_neg (by rw [hlen]; exact hc)]
    · have hd : ¬ enc.length / 256 < 256 := by omega
      rw [if_neg (by tauto), if_neg hl]

/-- A character whose lowercased form is `.` is `.` itself. -/
lemma eq_dot_of_toLower {x : Char} (h : Char.toLower x = '.') : x = '.' := by
  unfold Char.toLower at h
  simp only [] at h
  by_cases hc : x.toNat ≥ 65 ∧ x.toNat ≤ 90
  · exfalso
    rw [if_pos hc] at h
    have hval : (Char.ofNat (x.toNat + 32)).toNat = x.toNat + 32 := by
      unfold Char.ofNat
      have hv : (x.toNat + 32).isValidChar := Or.inl (by omega)
      rw [dif_pos hv]
      unfold Char.ofNatAux Char.toNat
      show (BitVec.ofNatLt _ _).toNat = _
      simp
    rw [h] at hval
    have hdot : ('.' : Char).toNat = 46 := by decide
    omega
  · rw [if_neg hc] at h
    exact h

/-- Splitting on a character that does not occur returns the whole string
as the single piece. -/
lemma splitCh_of_not_mem {c : Char} {s : Str} (h : c ∉ s) : splitCh c s = [s] := by
  induction s with
  | nil => rfl
  | cons x xs ih =>
    rw [splitCh, if_neg (by rintro rfl; exact h (List.mem_cons_self ..)),
      ih (fun hm => h (List.mem_cons_of_mem _ hm))]

/-- Claim C1 counterexample: with raw bytes `[17, 34, 51, 68]` and
compressed stream `[170]` the COMPRESSED representation is chosen, yet the
emitted array is `[0x01, 0x00, len_lo, len_hi, 0xaa]` — a constant `0x00`
byte sits between the flag byte and the 2-byte little-endian length, so
the frame is not flag-then-length-then-data as the claim states. -/
theorem claim1_counterexample :
    frameRepr [17, 34, 51, 68] [170] = some (true, [1, 0, 1, 0, 170]) ∧
    [1, 0, 1, 0, 170] ≠ specCompressedFrame [170] := by
  constructor
  · rfl
  · decide

/-- Claim C1 (amended): a frame whose COMPRESSED representation is chosen
is emitted as the flag byte `0x01`, one constant `0x00` byte, the 2-byte
little-endian compressed length, then the compressed bytes; a frame whose
RAW representation is chosen is emitted as the flag byte `0x00` followed
by the raw bitmap bytes. -/
theorem claim1_frame_layout (dataBin enc : List Nat) (c : Bool) (bytes : List Nat)
    (h : frameRepr dataBin enc = some (c, bytes)) :
    (c = true →
      bytes = 0x01 :: 0x00 :: (enc.length % 256) :: (enc.length / 256) :: enc) ∧
    (c = false → bytes = 0x00 :: dataBin) := by
  rw [frameRepr_char] at h
  split at h
  · exact absurd h (by simp)
  · split at h
    · split at h
      · simp only [Option.some.injEq, Prod.mk.injEq] at h
        obtain ⟨hc, hb⟩ := h
        cases hc
        exact ⟨fun _ => hb.symm, by simp⟩
      · simp only [Option.some.injEq, Prod.mk.injEq] at h
        obtain ⟨hc, hb⟩ := h
        cases hc
        exact ⟨by simp, fun _ => hb.symm⟩
    · exact absurd h (by simp)

/-- Claim C1 witness: the amended layout at a concrete compressed frame. -/
theorem claim1_witness :
    [1, 0, 1, 0, 170] =
      0x01 :: 0x00 :: (([170] : List Nat).length % 256) ::
        (([170] : List Nat).length / 256) :: [170] :=
  (claim1_frame_layout [17, 34, 51, 68] [170] true [1, 0, 1, 0, 170] (by decide)).1 rfl

/-- Claim C2: the COMPRESSED representation is chosen iff the compressed
blob including its 2-byte length header is strictly shorter than the raw
bytes plus the one flag byte; in particular at equal sizes RAW is
chosen. -/
theorem claim2_decision_rule (dataBin enc : List Nat) (c : Bool) (bytes : List Nat)
    (h : frameRepr dataBin enc = some (c, bytes)) :
    (c = true ↔ 2 + enc.length < dataBin.length + 1) ∧
    (2 + enc.length = dataBin.length + 1 → c = false) := by
  rw [frameRepr_char] at h
  split at h
  · exact absurd h (by simp)
  · split at h
    · split at h
      · simp only [Option.some.injEq, Prod.mk.injEq] at h
        obtain ⟨hc, -⟩ := h
        cases hc
        rename_i hlt
        exact ⟨by simp [hlt], fun he => absurd he (by omega)⟩
      · simp only [Option.some.injEq, Prod.mk.injEq] at h
        obtain ⟨hc, -⟩ := h
        cases hc
        rename_i hnlt
        exact ⟨by simp [hnlt], fun _ => rfl⟩
    · exact absurd h (by simp)

/-- Claim C2 witness: at the exact size tie (compressed-with-header of
length 3 against 2 raw bytes plus flag) the RAW representation is
chosen. -/
theorem claim2_witness :
    2 + ([9] : List Nat).length = ([1, 2] : List Nat).length + 1 ∧
    frameRepr [1, 2] [9] = some (false, [0, 1, 2]) ∧ false = false :=
  ⟨by decide, by decide,
    (claim2_decision_rule [1, 2] [9] false [0, 1, 2] (by decide)).2 (by decide)⟩

/-- Claim C9: for a compressed length below 2^16 the two prepended header
bytes are exactly the little-endian encoding of the length (low byte
`len mod 256` from the mask, high byte `len div 256` from the unmasked
shift); for lengths of 2^16 or more the high byte is out of range, the
bytearray constructor raises, and the frame encoding aborts instead of
wrapping. -/
theorem claim9_length_header (n : Nat) (dataBin enc : List Nat) :
    (n < 65536 → byteArray2 (n &&& 0xFF) (n >>> 8) = some [n % 256, n / 256]) ∧
    (65536 ≤ n → byteArray2 (n &&& 0xFF) (n >>> 8) = none) ∧
    (65536 ≤ enc.length → frameRepr dataBin enc = none) := by
  refine ⟨?_, ?_, ?_⟩
  · intro h
    unfold byteArray2
    rw [land_255_eq_mod, shiftRight_8_eq_div,
      if_pos ⟨Nat.mod_lt _ (by norm_num), by omega⟩]
  · intro h
    unfold byteArray2
    rw [land_255_eq_mod, shiftRight_8_eq_div, if_neg (by intro hc; have := hc.2; omega)]
  · intro h
    rw [frameRepr_char,
      if_neg (by intro he; rw [he] at h; simp at h), if_neg (by omega)]

/-- Claim C9 witness: the header bytes at length 300, the abort of the
bytearray constructor at length 70000, and the abort of the whole frame
encoding on a 65536-byte compressed stream. -/
theorem claim9_witness :
    byteArray2 (300 &&& 0xFF) (300 >>> 8) = some [300 % 256, 300 / 256] ∧
    byteArray2 (70000 &&& 0xFF) (70000 >>> 8) = none ∧
    frameRepr [] (List.replicate 65536 0) = none :=
  ⟨(claim9_length_header 300 [] []).1 (by decide),
   (claim9_length_header 70000 [] []).2.1 (by decide),
   (claim9_length_header 0 [] (List.replicate 65536 0)).2.2
     (Nat.le_of_eq (List.length_replicate 65536 0).symm)⟩

/-- Claim C10: a filename is supported iff the last dot-separated piece of
its lowercased form equals a supported extension; consequently a dotless
name that is itself the extension (such as `png` or `PNG`) is classified
as supported. -/
theorem claim10_extension_rule :
    (∀ f : Str,
      iconIsSupported f = true ↔ (splitCh '.' (pyLower f)).getLastD [] = str "png") ∧
    (∀ f : Str, '.' ∉ f → (iconIsSupported f = true ↔ pyLower f = str "png")) ∧
    iconIsSupported (str "png") = true ∧ iconIsSupported (str "PNG") = true ∧
    '.' ∉ str "PNG" := by
  have hchar : ∀ f : Str,
      iconIsSupported f = true ↔ (splitCh '.' (pyLower f)).getLastD [] = str "png" := by
    intro f
    unfold iconIsSupported ICONS_SUPPORTED_FORMATS
    simp
  refine ⟨hchar, ?_, by decide, by decide, by decide⟩
  intro f hdot
  rw [hchar f]
  have hnd : '.' ∉ pyLower f := by
    intro hm
    unfold pyLower at hm
    rw [List.mem_map] at hm
    obtain ⟨x, hx, hlx⟩ := hm
    exact hdot (eq_dot_of_toLower hlx ▸ hx)
  rw [splitCh_of_not_mem hnd]
  simp [List.getLastD]

/-- Claim C10 witness: the dotless-name consequence applied to `PNG`. -/
theorem claim10_witness :
    iconIsSupported (str "PNG") = true ↔ pyLower (str "PNG") = str "png" :=
  claim10_extension_rule.2.1 (str "PNG") (by decide)

/-- In a three-element list the element at index 2 is the last one. -/
lemma get2_eq_getLast {α : Type} (l : List α) (h : l.length = 3) :
    l.get? 2 = l.getLast? := by
  match l, h with
  | [a, b, c], _ => rfl

/-- Claim C3 counterexample: a collaborator output whose header lines
`a b 7 10` and `a b 8 9` each end in the pixel dimension (as the
interface requires) is parsed by taking the token at index 2 of each
line, yielding width 7 and height 8 rather than the last tokens 10
and 9. -/
theorem claim3_counterexample :
    (icon2header (fun _ => str "a b 7 10\na b 8 9\nq[]=\x7b0x11\x7d;")
        (fun _ => [170]) []).map (fun r => (r.1, r.2.1)) = some (7, 8) ∧
    specParseDim (str "a b 7 10") = some 10 ∧
    specParseDim (str "a b 8 9") = some 9 ∧
    ((7 : Int), (8 : Int)) ≠ ((10 : Int), (9 : Int)) := by
  refine ⟨by rfl, by decide, by decide, by decide⟩

/-- Claim C3 (amended): the extractor parses each header line by taking
the integer value of the token at index 2 of the single-space split of
the stripped line — width from the first line, height from the second.
For the three-token header lines the converter emits, index 2 is the last
token, which recovers the claim's reading. -/
theorem claim3_header_parse :
    (∀ line : Str, (splitCh ' ' (pyStrip line)).length = 3 →
      parseDimLine line =
        match (splitCh ' ' (pyStrip line)).getLast? with
        | none => none
        | some tok => pyInt tok) ∧
    (∀ (conv : Str → Str) (hs : List Nat → List Nat) (cnt : Str) (w h : Int) (d : Str),
      icon2header conv hs cnt = some (w, h, d) →
        parseDimLine (takeLine (pyStrip (conv cnt))).1 = some w ∧
        parseDimLine (takeLine (takeLine (pyStrip (conv cnt))).2).1 = some h) := by
  constructor
  · intro line h3
    unfold parseDimLine
    rw [get2_eq_getLast _ h3]
  · intro conv hs cnt w h d hrun
    unfold icon2header at hrun
    split at hrun
    · exact absurd hrun (by simp)
    · simp only [Option.bind_eq_some] at hrun
      obtain ⟨width, hw, height, hh, seg, hseg, dataBin, hbin, hrun⟩ := hrun
      split at hrun
      · exact absurd hrun (by simp)
      · simp only [Option.bind_eq_some, Option.some.injEq, Prod.mk.injEq] at hrun
        obtain ⟨hdr, hhdr, h1, h2, -⟩ := hrun
        exact ⟨h1 ▸ hw, h2 ▸ hh⟩

/-- Claim C3 witness: the amended rule applied to a genuine three-token
XBM header line, and the width glue fact at a concrete successful
extraction. -/
theorem claim3_witness :
    (parseDimLine (str "#define i_width 8") =
      match (splitCh ' ' (pyStrip (str "#define i_width 8"))).getLast? with
      | none => none
      | some tok => pyInt tok) ∧
    parseDimLine (takeLine (pyStrip ((fun _ : Str => str
        "#define i_width 8\n#define i_height 8\nstatic char i_bits[] = \x7b0x11,0x22\x7d;")
      []))).1 = some 8 :=
  ⟨claim3_header_parse.1 (str "#define i_width 8") (by decide),
   (claim3_header_parse.2
      (fun _ => str
        "#define i_width 8\n#define i_height 8\nstatic char i_bits[] = \x7b0x11,0x22\x7d;")
      (fun _ => [170]) [] 8 8 (str "\x7b0x00,0x11,0x22\x7d") (by rfl)).1⟩

/-- Splitting `base ++ sep :: e` where `base` avoids the separator yields
`base` first. -/
lemma splitCh_append_cons {c : Char} {e : Str} (base : Str) (h : c ∉ base) :
    splitCh c (base ++ c :: e) = base :: splitCh c e := by
  induction base with
  | nil => rw [List.nil_append, splitCh, if_pos rfl]
  | cons x xs ih =>
    have hx : ¬ x = c := by rintro rfl; exact h (List.mem_cons_self ..)
    rw [List.cons_append, splitCh, if_neg hx,
      ih (fun hm => h (List.mem_cons_of_mem _ hm))]

/-- Dropping over an append whose left part fully satisfies the
predicate. -/
lemma dropWhile_append_all {p : Char → Bool} {l1 l2 : Str}
    (h : ∀ a ∈ l1, p a = true) :
    List.dropWhile p (l1 ++ l2) = List.dropWhile p l2 := by
  induction l1 with
  | nil => rfl
  | cons x xs ih =>
    rw [List.cons_append, List.dropWhile_cons, if_pos (h x (List.mem_cons_self ..)),
      ih (fun a ha => h a (List.mem_cons_of_mem _ ha))]

/-- `splitCh` never returns the empty list. -/
lemma splitCh_ne_nil {c : Char} {s : Str} : splitCh c s ≠ [] := by
  cases s with
  | nil => simp [splitCh]
  | cons x xs =>
    rw [splitCh]
    split
    · simp
    · cases hs : splitCh c xs <;> simp

/-- `getLastD` of a nonempty list ignores its default. -/
lemma getLastD_irrel {α : Type} {l : List α} (h : l ≠ []) (a b : α) :
    l.getLastD a = l.getLastD b := by
  cases l with
  | nil => exact absurd rfl h
  | cons x xs => rw [List.getLastD_cons, List.getLastD_cons]

/-- Splitting at an occurring separator yields at least two pieces. -/
lemma splitCh_two_of_mem {c : Char} {s : Str} (h : c ∈ s) :
    ∃ y ys, splitCh c s = y :: ys ∧ ys ≠ [] := by
  induction s with
  | nil => exact absurd h (List.not_mem_nil _)
  | cons x xs ih =>
    by_cases hx : x = c
    · subst hx
      refine ⟨[], splitCh x xs, ?_, splitCh_ne_nil⟩
      rw [splitCh, if_pos rfl]
    · have hm : c ∈ xs := by
        rcases List.mem_cons.mp h with h1 | h2
        · exact absurd h1.symm hx
        · exact h2
      obtain ⟨y, ys, hys, hne⟩ := ih hm
      refine ⟨x :: y, ys, ?_, hne⟩
      rw [splitCh, if_neg hx, hys]

/-- The scan in `specBasename` agrees with taking the last piece of the
slash split. -/
lemma foldl_basename (s : Str) : ∀ acc : Str,
    s.foldl (fun acc ch => if ch = '/' then [] else acc ++ [ch]) acc =
      if '/' ∈ s then (splitCh '/' s).getLastD [] else acc ++ s := by
  induction s with
  | nil => intro acc; simp
  | cons x xs ih =>
    intro acc
    rw [List.foldl_cons]
    by_cases hx : x = '/'
    · subst hx
      rw [if_pos rfl, ih [], if_pos (List.mem_cons_self ..), splitCh, if_pos rfl,
        List.getLastD_cons]
      by_cases hm : '/' ∈ xs
      · rw [if_pos hm]
      · rw [if_neg hm, splitCh_of_not_mem hm]
        simp [List.getLastD_cons]
    · rw [if_neg hx, ih (acc ++ [x])]
      by_cases hm : '/' ∈ xs
      · rw [if_pos hm, if_pos (List.mem_cons_of_mem _ hm), splitCh, if_neg hx]
        obtain ⟨y, ys, hys, hne⟩ := splitCh_two_of_mem hm
        rw [hys, List.getLastD_cons, List.getLastD_cons]
        exact getLastD_irrel hne y (x :: y)
      · have hm' : ¬ '/' ∈ x :: xs := by
          intro hc
          rcases List.mem_cons.mp hc with h1 | h2
          · exact hx h1.symm
          · exact hm h2
        rw [if_neg hm, if_neg hm']
        simp

/-- Claim C5 counterexample: for the multi-dot filename `a.b.png` the code
joins ALL dot-separated pieces except the last with underscores, yielding
`I_a_b`, while the claimed rule — filename without its extension, hyphens
to underscores — yields `I_a.b`. -/
theorem claim5_counterexample :
    staticIconName (str "a.b.png") = str "I_a_b" ∧
    specStaticIconName (str "a.b.png") = str "I_a.b" ∧
    str "I_a_b" ≠ str "I_a.b" :=
  ⟨by rfl, by rfl, by decide⟩

/-- Claim C5 (amended): a static icon is named `I_` plus the dot-separated
pieces of the filename except the last, joined by underscores, hyphens
replaced by underscores — equal to the claimed "filename without its
extension" exactly when the stem has no dot of its own (and a dotless
filename gets the bare `I_`); an animation icon is named `A_` plus the
containing directory's basename with hyphens replaced by underscores,
exactly as claimed. -/
theorem claim5_naming :
    (∀ base e : Str, '.' ∉ base → '.' ∉ e →
      staticIconName (base ++ '.' :: e) = str "I_" ++ replaceCh '-' ['_'] base ∧
      specStaticIconName (base ++ '.' :: e) = str "I_" ++ replaceCh '-' ['_'] base) ∧
    (∀ f : Str, '.' ∉ f → staticIconName f = str "I_") ∧
    (∀ d : Str, animIconName d = specAnimIconName d) := by
  refine ⟨?_, ?_, ?_⟩
  · intro base e hb he
    constructor
    · unfold staticIconName
      rw [splitCh_append_cons base hb, splitCh_of_not_mem he]
      simp [List.intercalate]
    · unfold specStaticIconName specStripExt
      rw [if_pos (by simp)]
      have hst : (((base ++ '.' :: e).reverse.dropWhile (· != '.')).drop 1).reverse
          = base := by
        rw [List.reverse_append, List.reverse_cons, List.append_assoc,
          List.singleton_append,
          dropWhile_append_all (fun a ha => by
            have : a ∈ e := List.mem_reverse.mp ha
            simp only [bne_iff_ne, ne_eq]
            rintro rfl
            exact he this),
          List.dropWhile_cons]
        rw [if_neg (by simp)]
        simp
      rw [hst]
  · intro f hf
    unfold staticIconName
    rw [splitCh_of_not_mem hf]
    simp [List.intercalate, replaceCh]
  · intro dpath
    unfold animIconName specAnimIconName specBasename
    rw [foldl_basename dpath []]
    by_cases hm : '/' ∈ dpath
    · rw [if_pos hm]
    · rw [if_neg hm, splitCh_of_not_mem hm]
      simp [List.getLastD_cons]

/-- Claim C5 witness: the naming rules at `my-icon.png` and at the
animation directory `icons/foo-bar`. -/
theorem claim5_witness :
    staticIconName (str "my-icon" ++ '.' :: str "png") =
      str "I_" ++ replaceCh '-' ['_'] (str "my-icon") ∧
    animIconName (str "icons/foo-bar") = specAnimIconName (str "icons/foo-bar") :=
  ⟨(claim5_naming.1 (str "my-icon") (str "png") (by decide) (by decide)).1,
   claim5_naming.2.2 (str "icons/foo-bar")⟩

/-- Once the animation loop has locked a width and height, any later
qualifying frame reporting different dimensions aborts the loop. -/
lemma animLoop_none_of_mismatch (i2h : Str → Option (Int × Int × Str)) (nm : Str) :
    ∀ (files : List (Str × Str)) (st : AnimSt) (w0 h0 w h : Int),
      st.width = some w0 → st.height = some h0 →
      some (w, h) ∈ frameMetas i2h files → ¬(w = w0 ∧ h = h0) →
      animLoop i2h nm files st = none := by
  intro files
  induction files with
  | nil =>
    intro st w0 h0 w h hw hh hm hne
    simp [frameMetas] at hm
  | cons f rest ih =>
    obtain ⟨fname, cnt⟩ := f
    intro st w0 h0 w h hw hh hm hne
    rw [animLoop]
    by_cases hfr : fname = str "frame_rate"
    · rw [if_pos hfr]
      rw [frameMetas, if_pos hfr] at hm
      cases hpi : pyInt (pyStrip cnt) with
      | none => rfl
      | some r => exact ih _ w0 h0 w h hw hh hm hne
    · rw [if_neg hfr]
      rw [frameMetas, if_neg hfr] at hm
      by_cases hsup : iconIsSupported fname = true
      · rw [if_pos hsup]
        rw [if_pos hsup] at hm
        cases hi : i2h cnt with
        | none => rfl
        | some trip =>
          obtain ⟨tw, th, data⟩ := trip
          rw [hi] at hm
          simp only [hw, hh, Option.getD_some]
          by_cases hcond : w0 = tw ∧ h0 = th
          · rw [if_pos hcond]
            rcases List.mem_cons.mp hm with h1 | h2
            · exfalso
              apply hne
              simp only [Option.map_some', Option.some.injEq, Prod.mk.injEq] at h1
              exact ⟨h1.1.trans hcond.1.symm, h1.2.trans hcond.2.symm⟩
            · exact ih _ w0 h0 w h rfl rfl h2 hne
          · rw [if_neg hcond]
      · rw [if_neg hsup]
        rw [if_neg hsup] at hm
        exact ih _ w0 h0 w h hw hh hm hne

/-- A qualifying frame disagreeing with the first one's dimensions aborts
the animation loop started from the initial state. -/
lemma animLoop_none_of_head_mismatch (i2h : Str → Option (Int × Int × Str)) (nm : Str) :
    ∀ (files : List (Str × Str)) (st : AnimSt) (w0 h0 w h : Int)
      (ms : List (Option (Int × Int))),
      st.width = none → st.height = none →
      frameMetas i2h files = some (w0, h0) :: ms →
      some (w, h) ∈ ms → ¬(w = w0 ∧ h = h0) →
      animLoop i2h nm files st = none := by
  intro files
  induction files with
  | nil =>
    intro st w0 h0 w h ms hw hh hmetas
    simp [frameMetas] at hmetas
  | cons f rest ih =>
    obtain ⟨fname, cnt⟩ := f
    intro st w0 h0 w h ms hw hh hmetas hmem hne
    rw [animLoop]
    by_cases hfr : fname = str "frame_rate"
    · rw [if_pos hfr]
      rw [frameMetas, if_pos hfr] at hmetas
      cases hpi : pyInt (pyStrip cnt) with
      | none => rfl
      | some r => exact ih _ w0 h0 w h ms hw hh hmetas hmem hne
    · rw [if_neg hfr]
      rw [frameMetas, if_neg hfr] at hmetas
      by_cases hsup : iconIsSupported fname = true
      · rw [if_pos hsup]
        rw [if_pos hsup] at hmetas
        cases hi : i2h cnt with
        | none => rfl
        | some trip =>
          obtain ⟨tw, th, data⟩ := trip
          rw [hi] at hmetas
          simp only [Option.map_some', List.cons.injEq, Option.some.injEq,
            Prod.mk.injEq] at hmetas
          obtain ⟨⟨htw, hth⟩, hms⟩ := hmetas
          simp only [hw, hh, Option.getD_none, and_self, if_true]
          refine animLoop_none_of_mismatch i2h nm rest _ w0 h0 w h ?_ ?_ ?_ hne
          · simp [htw]
          · simp [hth]
          · rw [hms]
            exact hmem
      · rw [if_neg hsup]
        rw [if_neg hsup] at hmetas
        exact ih _ w0 h0 w h ms hw hh hmetas hmem hne

/-- Unfolding `processDir` at a literal (dirpath, files) pair. -/
lemma processDir_eq (i2h : Str → Option (Int × Int × Str)) (dirpath : Str)
    (files : List (Str × Str)) :
    processDir i2h (dirpath, files) =
      if files = [] then some ([], [])
      else if files.any (fun f => decide (f.1 = str "frame_rate")) then
        processAnim i2h dirpath files
      else processStatic i2h files := rfl

/-- One aborting directory aborts the whole sequential pass. -/
lemma processEntries_none (i2h : Str → Option (Int × Int × Str)) :
    ∀ (entries : List (Str × List (Str × Str))) (e : Str × List (Str × Str)),
      e ∈ entries → processDir i2h e = none → processEntries i2h entries = none := by
  intro entries
  induction entries with
  | nil =>
    intro e he
    exact absurd he (List.not_mem_nil _)
  | cons a rest ih =>
    intro e he hnone
    rcases List.mem_cons.mp he with rfl | hmem
    · rw [processEntries, hnone]
    · rw [processEntries]
      cases hd : processDir i2h a with
      | none => rfl
      | some r =>
        obtain ⟨ws, ics⟩ := r
        rw [ih e hmem hnone]

/-- One aborting directory aborts the whole `icons` run. -/
lemma iconsRun_none {conv : Str → Str} {hs : List Nat → List Nat} {root : Str}
    {t : FsTree} {e : Str × List (Str × Str)}
    (he : e ∈ walkTree root (canonTree t))
    (hnone : processDir (icon2header conv hs) e = none) :
    iconsRun conv hs root t = none := by
  unfold iconsRun
  rw [processEntries_none _ _ e he hnone]

/-- A list with a satisfying element is nonempty. -/
lemma ne_nil_of_any {α : Type} {l : List α} {p : α → Bool} (h : l.any p = true) :
    l ≠ [] := by
  intro he
  rw [he] at h
  simp at h

/-- Claim C6: in an animation directory, a qualifying frame whose
extracted width or height differs from the first frame's aborts the run —
the animation branch, the directory, and the whole `icons` command all
return `none`, so no icon is produced for the group. -/
theorem claim6_dimension_check
    (conv : Str → Str) (hs : List Nat → List Nat) (dirpath : Str)
    (files : List (Str × Str)) (w0 h0 w h : Int) (ms : List (Option (Int × Int)))
    (hanim : files.any (fun f => decide (f.1 = str "frame_rate")) = true)
    (hmetas : frameMetas (icon2header conv hs) files = some (w0, h0) :: ms)
    (hmem : some (w, h) ∈ ms) (hne : ¬(w = w0 ∧ h = h0)) :
    processAnim (icon2header conv hs) dirpath files = none ∧
    processDir (icon2header conv hs) (dirpath, files) = none ∧
    ∀ (root : Str) (t : FsTree), (dirpath, files) ∈ walkTree root (canonTree t) →
      iconsRun conv hs root t = none := by
  have hpa : processAnim (icon2header conv hs) dirpath files = none := by
    unfold processAnim
    rw [animLoop_none_of_head_mismatch (icon2header conv hs) (animIconName dirpath)
      files animSt0 w0 h0 w h ms rfl rfl hmetas hmem hne]
  have hpd : processDir (icon2header conv hs) (dirpath, files) = none := by
    rw [processDir_eq, if_neg (ne_nil_of_any hanim), if_pos hanim, hpa]
  exact ⟨hpa, hpd, fun root t he => iconsRun_none he hpd⟩

/-- Claim C6 witness: a two-frame animation whose second frame is 9 pixels
wide while the first is 8 aborts the whole run. -/
theorem claim6_witness :
    processAnim
      (icon2header (fun cnt => cnt) (fun _ => [170])) (str "icons/anim")
      [(str "a.png", str
          "#define i_width 8\n#define i_height 8\nstatic char i_bits[] = \x7b0x11\x7d;"),
       (str "b.png", str
          "#define i_width 9\n#define i_height 8\nstatic char i_bits[] = \x7b0x11\x7d;"),
       (str "frame_rate", str "2")] = none := by
  have h := claim6_dimension_check (fun cnt => cnt) (fun _ => [170]) (str "icons/anim")
    [(str "a.png", str
        "#define i_width 8\n#define i_height 8\nstatic char i_bits[] = \x7b0x11\x7d;"),
     (str "b.png", str
        "#define i_width 9\n#define i_height 8\nstatic char i_bits[] = \x7b0x11\x7d;"),
     (str "frame_rate", str "2")] 8 8 9 8 [some (9, 8)]
    (by decide) (by rfl) (by decide) (by decide)
  exact h.1

/-- With no `frame_rate` entry among the files, the loop leaves the rate
unchanged. -/
lemma animLoop_rate_const (i2h : Str → Option (Int × Int × Str)) (nm : Str) :
    ∀ (files : List (Str × Str)) (st st' : AnimSt),
      (∀ c : Str, (str "frame_rate", c) ∉ files) →
      animLoop i2h nm files st = some st' → st'.rate = st.rate := by
  intro files
  induction files with
  | nil =>
    intro st st' hno hl
    rw [animLoop] at hl
    cases hl
    rfl
  | cons f rest ih =>
    obtain ⟨fname, cnt⟩ := f
    intro st st' hno hl
    rw [animLoop] at hl
    by_cases hfr : fname = str "frame_rate"
    · exfalso
      subst hfr
      exact hno cnt (List.mem_cons_self ..)
    · rw [if_neg hfr] at hl
      by_cases hsup : iconIsSupported fname = true
      · rw [if_pos hsup] at hl
        split at hl
        · exact absurd hl (by simp)
        · split at hl
          · have h5 := ih _ st' (fun c hc => hno c (List.mem_cons_of_mem _ hc)) hl
            exact h5
          · exact absurd hl (by simp)
      · rw [if_neg hsup] at hl
        exact ih _ _ (fun c hc => hno c (List.mem_cons_of_mem _ hc)) hl

/-- With distinct filenames, a `frame_rate` file whose content parses as
`r` makes the loop's final rate exactly `r`. -/
lemma animLoop_rate_of_mem (i2h : Str → Option (Int × Int × Str)) (nm : Str) :
    ∀ (files : List (Str × Str)) (st st' : AnimSt) (c : Str) (r : Int),
      (files.map Prod.fst).Nodup →
      (str "frame_rate", c) ∈ files → pyInt (pyStrip c) = some r →
      animLoop i2h nm files st = some st' → st'.rate = r := by
  intro files
  induction files with
  | nil =>
    intro st st' c r hnd hmem
    exact absurd hmem (List.not_mem_nil _)
  | cons f rest ih =>
    obtain ⟨fname, cnt⟩ := f
    intro st st' c r hnd hmem hpr hl
    rw [animLoop] at hl
    rcases List.mem_cons.mp hmem with heq | hmem'
    · obtain ⟨h1, h2⟩ := Prod.ext_iff.mp heq.symm
      subst h1
      rw [if_pos rfl] at hl
      have h2' : cnt = c := h2
      subst h2'
      rw [hpr] at hl
      have hnofr : ∀ c' : Str, (str "frame_rate", c') ∉ rest := by
        intro c' hc'
        exact (List.nodup_cons.mp hnd).1
          (List.mem_map.mpr ⟨(str "frame_rate", c'), hc', rfl⟩)
      exact animLoop_rate_const i2h nm rest _ st' hnofr hl
    · have hfname : ¬ fname = str "frame_rate" := by
        intro he
        subst he
        exact (List.nodup_cons.mp hnd).1 (List.mem_map.mpr ⟨(str "frame_rate", c), hmem', rfl⟩)
      rw [if_neg hfname] at hl
      by_cases hsup : iconIsSupported fname = true
      · rw [if_pos hsup] at hl
        split at hl
        · exact absurd hl (by simp)
        · split at hl
          · have h5 := ih _ st' c r (List.nodup_cons.mp hnd).2 hmem' hpr hl
            exact h5
          · exact absurd hl (by simp)
      · rw [if_neg hsup] at hl
        exact ih _ st' c r (List.nodup_cons.mp hnd).2 hmem' hpr hl

/-- With no qualifying frame files the loop cannot increase the count. -/
lemma animLoop_count_const (i2h : Str → Option (Int × Int × Str)) (nm : Str) :
    ∀ (files : List (Str × Str)) (st st' : AnimSt),
      frameMetas i2h files = [] →
      animLoop i2h nm files st = some st' → st'.count = st.count := by
  intro files
  induction files with
  | nil =>
    intro st st' hz hl
    rw [animLoop] at hl
    cases hl
    rfl
  | cons f rest ih =>
    obtain ⟨fname, cnt⟩ := f
    intro st st' hz hl
    rw [animLoop] at hl
    by_cases hfr : fname = str "frame_rate"
    · rw [if_pos hfr] at hl
      rw [frameMetas, if_pos hfr] at hz
      split at hl
      · exact absurd hl (by simp)
      · have h5 := ih _ _ hz hl
        exact h5
    · rw [if_neg hfr] at hl
      rw [frameMetas, if_neg hfr] at hz
      by_cases hsup : iconIsSupported fname = true
      · rw [if_pos hsup] at hz
        exact absurd hz (by simp)
      · rw [if_neg hsup] at hl
        rw [if_neg hsup] at hz
        exact ih _ _ hz hl

/-- Claim C7: for an animation directory (one listing `frame_rate`), a run
with zero qualifying image frames, or whose parsed frame rate is not
positive, aborts: the animation branch, the directory and the whole
`icons` command return `none`, and no descriptor is appended. -/
theorem claim7_anim_asserts
    (conv : Str → Str) (hs : List Nat → List Nat) (dirpath : Str)
    (files : List (Str × Str))
    (hanim : files.any (fun f => decide (f.1 = str "frame_rate")) = true) :
    (frameMetas (icon2header conv hs) files = [] →
      processAnim (icon2header conv hs) dirpath files = none ∧
      processDir (icon2header conv hs) (dirpath, files) = none ∧
      ∀ (root : Str) (t : FsTree), (dirpath, files) ∈ walkTree root (canonTree t) →
        iconsRun conv hs root t = none) ∧
    (∀ (c : Str) (r : Int), (files.map Prod.fst).Nodup →
      (str "frame_rate", c) ∈ files → pyInt (pyStrip c) = some r → r ≤ 0 →
      processAnim (icon2header conv hs) dirpath files = none ∧
      processDir (icon2header conv hs) (dirpath, files) = none ∧
      ∀ (root : Str) (t : FsTree), (dirpath, files) ∈ walkTree root (canonTree t) →
        iconsRun conv hs root t = none) := by
  constructor
  · intro hz
    have hpa : processAnim (icon2header conv hs) dirpath files = none := by
      unfold processAnim
      cases hl : animLoop (icon2header conv hs) (animIconName dirpath) files animSt0 with
      | none => rfl
      | some st =>
        have hc := animLoop_count_const _ _ files animSt0 st hz hl
        exact if_neg (by intro hcond; rw [hc] at hcond; exact absurd hcond.2 (by decide))
    have hpd : processDir (icon2header conv hs) (dirpath, files) = none := by
      rw [processDir_eq, if_neg (ne_nil_of_any hanim), if_pos hanim, hpa]
    exact ⟨hpa, hpd, fun root t he => iconsRun_none he hpd⟩
  · intro c r hnd hmem hpr hr
    have hpa : processAnim (icon2header conv hs) dirpath files = none := by
      unfold processAnim
      cases hl : animLoop (icon2header conv hs) (animIconName dirpath) files animSt0 with
      | none => rfl
      | some st =>
        have hrate := animLoop_rate_of_mem _ _ files animSt0 st c r hnd hmem hpr hl
        exact if_neg (by intro hcond; rw [hrate] at hcond; exact absurd hcond.1 (by omega))
    have hpd : processDir (icon2header conv hs) (dirpath, files) = none := by
      rw [processDir_eq, if_neg (ne_nil_of_any hanim), if_pos hanim, hpa]
    exact ⟨hpa, hpd, fun root t he => iconsRun_none he hpd⟩

/-- Claim C7 witness: an animation directory with no image frame at all,
and one whose `frame_rate` file reads `0`, both abort. -/
theorem claim7_witness :
    processAnim (icon2header (fun cnt => cnt) (fun _ => [170])) (str "icons/anim")
      [(str "frame_rate", str "2"), (str "note.txt", str "hi")] = none ∧
    processAnim (icon2header (fun cnt => cnt) (fun _ => [170])) (str "icons/anim2")
      [(str "a.png", str
          "#define i_width 8\n#define i_height 8\nstatic char i_bits[] = \x7b0x11\x7d;"),
       (str "frame_rate", str "0")] = none := by
  constructor
  · exact ((claim7_anim_asserts (fun cnt => cnt) (fun _ => [170]) (str "icons/anim")
      [(str "frame_rate", str "2"), (str "note.txt", str "hi")] (by decide)).1
      (by decide)).1
  · exact ((claim7_anim_asserts (fun cnt => cnt) (fun _ => [170]) (str "icons/anim2")
      [(str "a.png", str
          "#define i_width 8\n#define i_height 8\nstatic char i_bits[] = \x7b0x11\x7d;"),
       (str "frame_rate", str "0")] (by decide)).2 (str "0") 0
      (by decide) (by decide) (by decide) (by decide)).1

/-- Appending one rendered element per step is mapping. -/
lemma foldl_append_map {α β : Type} (l : List α) (init : List β) (f : α → β) :
    l.foldl (fun acc i => acc ++ [f i]) init = init ++ l.map f := by
  induction l generalizing init with
  | nil => simp
  | cons x xs ih =>
    rw [List.foldl_cons, ih]
    simp

/-- The sequential pass is the per-directory results, concatenated. -/
lemma processEntries_eq (i2h : Str → Option (Int × Int × Str)) :
    ∀ entries : List (Str × List (Str × Str)),
      processEntries i2h entries = (dirResults i2h entries).map
        (fun rs => ((rs.map Prod.fst).flatten, (rs.map Prod.snd).flatten)) := by
  intro entries
  induction entries with
  | nil => rfl
  | cons e rest ih =>
    rw [processEntries, dirResults]
    cases hd : processDir i2h e with
    | none => rfl
    | some r =>
      obtain ⟨ws, ics⟩ := r
      rw [ih]
      cases hr : dirResults i2h rest with
      | none => rfl
      | some rs => rfl

/-- An 8x8 two-byte XBM intermediate used by the concrete runs below. -/
def xbmSmall : Str :=
  str "#define i_width 8\n#define i_height 8\nstatic char i_bits[] = \x7b0x11,0x22\x7d;"

/-- The raw-format frame initialiser the pipeline produces from
`xbmSmall`. -/
def dataRawSmall : Str := str "\x7b0x00,0x11,0x22\x7d"

/-- Claim C4 counterexample: with two static icons `a.png`, `b.png` in one
directory the artifact interleaves per icon — frame block of `I_a`, then
its pointer array, then the frame block of `I_b` — whereas the claimed
layout puts ALL frame blocks before ALL pointer arrays. -/
theorem claim4_counterexample :
    (iconsRun (fun cnt => cnt) (fun _ => [170]) (str "icons")
        (.node [(str "a.png", xbmSmall), (str "b.png", xbmSmall)] [])).map Prod.fst =
      some [strCHeader,
        frameChunk (str "_I_a_0") dataRawSmall,
        dataChunk (str "_I_a") (bracePack [str "_I_a_0"]), str "\n",
        frameChunk (str "_I_b_0") dataRawSmall,
        dataChunk (str "_I_b") (bracePack [str "_I_b_0"]), str "\n",
        descChunk ⟨str "I_a", some 8, some 8, 0, 1⟩,
        descChunk ⟨str "I_b", some 8, some 8, 0, 1⟩, str "\n"] ∧
    (iconsRun (fun cnt => cnt) (fun _ => [170]) (str "icons")
        (.node [(str "a.png", xbmSmall), (str "b.png", xbmSmall)] [])).map Prod.fst ≠
      some [strCHeader,
        frameChunk (str "_I_a_0") dataRawSmall,
        frameChunk (str "_I_b_0") dataRawSmall,
        dataChunk (str "_I_a") (bracePack [str "_I_a_0"]),
        dataChunk (str "_I_b") (bracePack [str "_I_b_0"]),
        descChunk ⟨str "I_a", some 8, some 8, 0, 1⟩,
        descChunk ⟨str "I_b", some 8, some 8, 0, 1⟩, str "\n"] := by
  have h1 : (iconsRun (fun cnt => cnt) (fun _ => [170]) (str "icons")
      (.node [(str "a.png", xbmSmall), (str "b.png", xbmSmall)] [])).map Prod.fst =
      some [strCHeader,
        frameChunk (str "_I_a_0") dataRawSmall,
        dataChunk (str "_I_a") (bracePack [str "_I_a_0"]), str "\n",
        frameChunk (str "_I_b_0") dataRawSmall,
        dataChunk (str "_I_b") (bracePack [str "_I_b_0"]), str "\n",
        descChunk ⟨str "I_a", some 8, some 8, 0, 1⟩,
        descChunk ⟨str "I_b", some 8, some 8, 0, 1⟩, str "\n"] := by rfl
  refine ⟨h1, ?_⟩
  rw [h1]
  decide

/-- Claim C4 (amended): on a successful run the implementation artifact is
the write sequence: fixed header, then each walked directory's block in
visit order (within a directory, each icon's frame data blocks followed
immediately by its own frame-pointer array and a blank line), then the
descriptor table — one line per icon in registry order — then a final
blank line; the declarations artifact is its fixed header then one
declaration per icon in registry order; nothing is reordered or
deduplicated. -/
theorem claim4_emission_layout (conv : Str → Str) (hs : List Nat → List Nat)
    (root : Str) (t : FsTree) (wc wh : List Str)
    (h : iconsRun conv hs root t = some (wc, wh)) :
    ∃ rs : List (List Str × List IconRec),
      dirResults (icon2header conv hs) (walkTree root (canonTree t)) = some rs ∧
      wc = strCHeader :: ((rs.map Prod.fst).flatten ++
        ((rs.map Prod.snd).flatten.map descChunk) ++ [str "\n"]) ∧
      wh = strHHeader :: (rs.map Prod.snd).flatten.map (fun i => declChunk i.name) := by
  unfold iconsRun at h
  rw [processEntries_eq] at h
  cases hr : dirResults (icon2header conv hs) (walkTree root (canonTree t)) with
  | none =>
    rw [hr] at h
    exact absurd h (by simp)
  | some rs =>
    rw [hr] at h
    simp only [Option.map_some'] at h
    refine ⟨rs, rfl, ?_, ?_⟩
    · have hwc := congrArg (fun p => p.1) (Option.some.inj h)
      simp only [] at hwc
      rw [← hwc, foldl_append_map]
      simp
    · have hwh := congrArg (fun p => p.2) (Option.some.inj h)
      simp only [] at hwh
      rw [← hwh, foldl_append_map]
      rfl

/-- Claim C4 witness: the amended layout at a concrete one-icon run. -/
theorem claim4_witness :
    ∃ rs : List (List Str × List IconRec),
      dirResults (icon2header (fun cnt => cnt) (fun _ => [170]))
          (walkTree (str "icons") (canonTree (.node [(str "a.png", xbmSmall)] []))) =
        some rs ∧
      [strCHeader, frameChunk (str "_I_a_0") dataRawSmall,
        dataChunk (str "_I_a") (bracePack [str "_I_a_0"]), str "\n",
        descChunk ⟨str "I_a", some 8, some 8, 0, 1⟩, str "\n"] =
        strCHeader :: ((rs.map Prod.fst).flatten ++
          ((rs.map Prod.snd).flatten.map descChunk) ++ [str "\n"]) ∧
      [strHHeader, declChunk (str "I_a")] =
        strHHeader :: (rs.map Prod.snd).flatten.map (fun i => declChunk i.name) :=
  claim4_emission_layout (fun cnt => cnt) (fun _ => [170]) (str "icons")
    (.node [(str "a.png", xbmSmall)] [])
    [strCHeader, frameChunk (str "_I_a_0") dataRawSmall,
      dataChunk (str "_I_a") (bracePack [str "_I_a_0"]), str "\n",
      descChunk ⟨str "I_a", some 8, some 8, 0, 1⟩, str "\n"]
    [strHHeader, declChunk (str "I_a")] (by rfl)

/-- The name order is total. -/
lemma lexLe_total : ∀ a b : Str, lexLe a b = true ∨ lexLe b a = true
  | [], _ => Or.inl rfl
  | _ :: _, [] => Or.inr rfl
  | x :: xs, y :: ys => by
    by_cases hxy : x = y
    · subst hxy
      rw [lexLe, if_pos rfl, lexLe, if_pos rfl]
      exact lexLe_total xs ys
    · rcases lt_trichotomy x y with hlt | heq | hgt
      · left
        rw [lexLe, if_neg hxy]
        simpa using hlt
      · exact absurd heq hxy
      · right
        rw [lexLe, if_neg (fun he => hxy he.symm)]
        simpa using hgt

/-- The name order is transitive. -/
lemma lexLe_trans : ∀ a b c : Str,
    lexLe a b = true → lexLe b c = true → lexLe a c = true
  | [], _, _, _, _ => rfl
  | _ :: _, [], _, hab, _ => by simp [lexLe] at hab
  | _ :: _, _ :: _, [], _, hbc => by simp [lexLe] at hbc
  | x :: xs, y :: ys, z :: zs, hab, hbc => by
    rw [lexLe] at hab hbc ⊢
    by_cases hxy : x = y
    · subst hxy
      rw [if_pos rfl] at hab
      by_cases hyz : x = z
      · subst hyz
        rw [if_pos rfl] at hbc
        rw [if_pos rfl]
        exact lexLe_trans xs ys zs hab hbc
      · rw [if_neg hyz] at hbc
        rw [if_neg hyz]
        exact hbc
    · rw [if_neg hxy] at hab
      have hxylt : x < y := by simpa using hab
      by_cases hyz : y = z
      · subst hyz
        rw [if_neg hxy]
        simpa using hxylt
      · rw [if_neg hyz] at hbc
        have hyzlt : y < z := by simpa using hbc
        have hxz : x < z := lt_trans hxylt hyzlt
        rw [if_neg (fun he : x = z => absurd (he ▸ hxz) (lt_irrefl z))]
        simpa using hxz

/-- The name order is antisymmetric. -/
lemma lexLe_antisymm : ∀ a b : Str, lexLe a b = true → lexLe b a = true → a = b
  | [], [], _, _ => rfl
  | [], _ :: _, _, hba => by simp [lexLe] at hba
  | _ :: _, [], hab, _ => by simp [lexLe] at hab
  | x :: xs, y :: ys, hab, hba => by
    rw [lexLe] at hab hba
    by_cases hxy : x = y
    · subst hxy
      rw [if_pos rfl] at hab hba
      rw [lexLe_antisymm xs ys hab hba]
    · rw [if_neg hxy] at hab
      rw [if_neg (fun he => hxy he.symm)] at hba
      have h1 : x < y := by simpa using hab
      have h2 : y < x := by simpa using hba
      exact absurd (lt_trans h1 h2) (lt_irrefl x)

/-- Insertion permutes. -/
lemma insPair_perm {β : Type} (x : Str × β) :
    ∀ l : List (Str × β), (insPair x l).Perm (x :: l)
  | [] => List.Perm.refl _
  | y :: ys => by
    rw [insPair]
    split
    · exact List.Perm.refl _
    · exact ((insPair_perm x ys).cons y).trans (List.Perm.swap x y ys)

/-- Sorting permutes. -/
lemma sortPairs_perm {β : Type} : ∀ l : List (Str × β), (sortPairs l).Perm l
  | [] => List.Perm.refl _
  | x :: xs => by
    rw [sortPairs]
    exact (insPair_perm x (sortPairs xs)).trans ((sortPairs_perm xs).cons x)

/-- Insertion into a name-sorted list keeps it name-sorted. -/
lemma insPair_pairwise {β : Type} (x : Str × β) :
    ∀ l : List (Str × β), l.Pairwise (fun a b => lexLe a.1 b.1 = true) →
      (insPair x l).Pairwise (fun a b => lexLe a.1 b.1 = true)
  | [], _ => by simp [insPair]
  | y :: ys, hp => by
    rw [insPair]
    split
    · rename_i hle
      constructor
      · intro z hz
        rcases List.mem_cons.mp hz with rfl | hz'
        · exact hle
        · exact lexLe_trans _ _ _ hle (List.rel_of_pairwise_cons hp hz')
      · exact hp
    · rename_i hnle
      have hyx : lexLe y.1 x.1 = true := by
        rcases lexLe_total x.1 y.1 with h | h
        · exact absurd h hnle
        · exact h
      constructor
      · intro z hz
        have hz2 := (insPair_perm x ys).mem_iff.mp hz
        rcases List.mem_cons.mp hz2 with rfl | hz'
        · exact hyx
        · exact List.rel_of_pairwise_cons hp hz'
      · exact insPair_pairwise x ys hp.of_cons

/-- The sort's output is name-sorted. -/
lemma sortPairs_pairwise {β : Type} :
    ∀ l : List (Str × β), (sortPairs l).Pairwise (fun a b => lexLe a.1 b.1 = true)
  | [] => List.Pairwise.nil
  | x :: xs => by
    rw [sortPairs]
    exact insPair_pairwise x (sortPairs xs) (sortPairs_pairwise xs)

/-- For sibling lists with distinct names — as a filesystem guarantees —
the sorted form is invariant under permutation. -/
lemma sortPairs_eq_of_perm {β : Type} {l1 l2 : List (Str × β)}
    (hperm : l1.Perm l2) (hnd : (l1.map Prod.fst).Nodup) :
    sortPairs l1 = sortPairs l2 := by
  have hperm' : (sortPairs l1).Perm (sortPairs l2) :=
    (sortPairs_perm l1).trans (hperm.trans (sortPairs_perm l2).symm)
  have hnd1 : ((sortPairs l1).map Prod.fst).Nodup :=
    ((sortPairs_perm l1).map Prod.fst).symm.nodup hnd
  have hnd2 : ((sortPairs l2).map Prod.fst).Nodup :=
    ((sortPairs_perm l2).map Prod.fst).symm.nodup ((hperm.map Prod.fst).nodup hnd)
  have hs1 : (sortPairs l1).Pairwise
      (fun a b : Str × β => lexLe a.1 b.1 = true ∧ ¬ a.1 = b.1) :=
    (sortPairs_pairwise l1).and (List.pairwise_map.mp hnd1)
  have hs2 : (sortPairs l2).Pairwise
      (fun a b : Str × β => lexLe a.1 b.1 = true ∧ ¬ a.1 = b.1) :=
    (sortPairs_pairwise l2).and (List.pairwise_map.mp hnd2)
  haveI : IsAntisymm (Str × β) (fun a b => lexLe a.1 b.1 = true ∧ ¬ a.1 = b.1) :=
    ⟨fun a b hab hba => (hab.2 (lexLe_antisymm _ _ hab.1 hba.1)).elim⟩
  exact List.eq_of_perm_of_sorted hperm' hs1 hs2

/-- `canonDirs` is a pointwise map. -/
lemma canonDirs_eq_map : ∀ ds : List (Str × FsTree),
    canonDirs ds = ds.map (fun p => (p.1, canonTree p.2))
  | [] => rfl
  | (n, t) :: rest => by
    rw [canonDirs, canonDirs_eq_map rest]
    rfl

/-- Claim C8: the artifacts depend only on the canonicalised (recursively
name-sorted) form of the input tree, because subdirectory and file names
are sorted before visiting: two trees with the same canonical form —
in particular, trees differing only in the enumeration order of sibling
files or subdirectories with their filesystem-guaranteed distinct names —
produce byte-identical write sequences for both artifacts. -/
theorem claim8_determinism (conv : Str → Str) (hs : List Nat → List Nat) (root : Str) :
    (∀ t1 t2 : FsTree, canonTree t1 = canonTree t2 →
      iconsRun conv hs root t1 = iconsRun conv hs root t2) ∧
    (∀ (fs1 fs2 : List (Str × Str)) (ds : List (Str × FsTree)),
      fs1.Perm fs2 → (fs1.map Prod.fst).Nodup →
      canonTree (.node fs1 ds) = canonTree (.node fs2 ds)) ∧
    (∀ (fs : List (Str × Str)) (ds1 ds2 : List (Str × FsTree)),
      ds1.Perm ds2 → (ds1.map Prod.fst).Nodup →
      canonTree (.node fs ds1) = canonTree (.node fs ds2)) := by
  refine ⟨?_, ?_, ?_⟩
  · intro t1 t2 hc
    unfold iconsRun
    rw [hc]
  · intro fs1 fs2 ds hperm hnd
    rw [canonTree, canonTree, sortPairs_eq_of_perm hperm hnd]
  · intro fs ds1 ds2 hperm hnd
    rw [canonTree, canonTree]
    congr 1
    apply sortPairs_eq_of_perm
    · rw [canonDirs_eq_map, canonDirs_eq_map]
      exact hperm.map _
    · rw [canonDirs_eq_map]
      have hkeys : (ds1.map (fun p => (p.1, canonTree p.2))).map Prod.fst
          = ds1.map Prod.fst := by
        rw [List.map_map]
        rfl
      rw [hkeys]
      exact hnd

/-- Claim C8 witness: listing the two sibling files in the opposite order
leaves the run's output unchanged. -/
theorem claim8_witness :
    iconsRun (fun cnt => cnt) (fun _ => [170]) (str "icons")
        (.node [(str "b.png", xbmSmall), (str "a.png", xbmSmall)] []) =
      iconsRun (fun cnt => cnt) (fun _ => [170]) (str "icons")
        (.node [(str "a.png", xbmSmall), (str "b.png", xbmSmall)] []) :=
  (claim8_determinism (fun cnt => cnt) (fun _ => [170]) (str "icons")).1
    (.node [(str "b.png", xbmSmall), (str "a.png", xbmSmall)] [])
    (.node [(str "a.png", xbmSmall), (str "b.png", xbmSmall)] []) (by rfl)
